import Mathlib

/-!
# Verification of the browser perception-and-control plane

Shallow embedding of the gateway world-state store (`world-state.ts`), the
policy layer (`policy.ts`), the command pipeline of the gateway server
(`server.ts`), the extension-side watcher diff (`watchers.ts`) and the
in-page executor's verification ack (`executor.ts`), together with theorems
settling the specification claims about them.

Conventions of the embedding:
* JS `Map` objects are modelled as association lists; `alSet` replaces an
  existing binding in place (as `Map.set` does), `alErase` removes a key.
* JS numbers that the code only ever handles as integers (timestamps,
  pixel rectangles, counters) are modelled as `Int`/`Nat`; the float
  geometry of `getBoundingClientRect` is modelled as `ℚ`.
* `undefined`/missing optional values are `Option.none`; JS truthiness
  tests on strings (`if (x)`) are modelled as `≠ ""` on present values.
* Mutation of a record held in a map is modelled by re-storing the updated
  record under the same key, which is extensionally the same map.
-/

/-! ## Association lists with JS `Map` semantics -/

section AList

variable {κ : Type} {α : Type} [DecidableEq κ]

/-- Lookup of a key, mirroring `Map.get`: the first binding wins (JS maps
never hold duplicate keys, so on reachable states there is at most one). -/
def alFind? : List (κ × α) → κ → Option α
  | [], _ => none
  | (k', v) :: rest, k => if k' = k then some v else alFind? rest k

/-- `Map.set`: replace the binding in place if the key exists, else append. -/
def alSet : List (κ × α) → κ → α → List (κ × α)
  | [], k, v => [(k, v)]
  | (k', v') :: rest, k, v =>
    if k' = k then (k, v) :: rest else (k', v') :: alSet rest k v

/-- `Map.delete`.  JS maps have unique keys, so removing every binding of
the key agrees with `Map.delete` on all reachable states. -/
def alErase : List (κ × α) → κ → List (κ × α)
  | [], _ => []
  | (k', v') :: rest, k =>
    if k' = k then alErase rest k else (k', v') :: alErase rest k

theorem alFind?_alSet (m : List (κ × α)) (k : κ) (v : α) (k' : κ) :
    alFind? (alSet m k v) k' = if k = k' then some v else alFind? m k' := by
  induction m with
  | nil => simp [alSet, alFind?]
  | cons e rest ih =>
    obtain ⟨ke, ve⟩ := e
    simp only [alSet]
    by_cases h1 : ke = k
    · subst h1
      simp only [if_pos rfl, alFind?]
      by_cases h2 : ke = k'
      · simp [h2]
      · simp [h2, fun h' : k' = ke => h2 h'.symm]
    · simp only [if_neg h1, alFind?, ih]
      by_cases h2 : ke = k'
      · subst h2
        have h4 : ¬ k = ke := fun h => h1 h.symm
        simp [h4]
      · simp [h2, fun h' : k' = ke => h2 h'.symm]

theorem alFind?_alErase (m : List (κ × α)) (k : κ) (k' : κ) :
    alFind? (alErase m k) k' = if k = k' then none else alFind? m k' := by
  induction m with
  | nil =>
    simp only [alErase, alFind?]
    by_cases h : k = k' <;> simp [h]
  | cons e rest ih =>
    obtain ⟨ke, ve⟩ := e
    simp only [alErase]
    by_cases h1 : ke = k
    · subst h1
      simp only [if_pos rfl, alFind?]
      by_cases h2 : ke = k'
      · subst h2
        simp [ih]
      · simp [ih, h2]
    · simp only [if_neg h1, alFind?, ih]
      by_cases h2 : ke = k'
      · subst h2
        have h4 : ¬ k = ke := fun h => h1 h.symm
        simp [h4]
      · simp [h2, fun h' : k' = ke => h2 h'.symm]

/-- The values of the map, mirroring `Array.from(map.values())`. -/
def alValues (m : List (κ × α)) : List α := m.map Prod.snd

end AList

/-! ## Shared protocol data model (`protocol.ts`) -/

structure Rect where
  x : Int
  y : Int
  w : Int
  h : Int
deriving DecidableEq

structure HitPoint where
  cx : Int
  cy : Int
deriving DecidableEq

structure ActionState where
  disabled : Bool
  expanded : Bool
  checked : Bool
  selected : Bool
  focused : Bool
deriving DecidableEq

structure ActionContext where
  inModal : Bool
  inNav : Bool
  inForm : Bool
  depth : Nat
  formId : Option String
deriving DecidableEq

structure StyleHint where
  isPrimary : Bool
  isDanger : Bool
  cursorPointer : Bool
  backgroundColor : Option String
  textColor : Option String
deriving DecidableEq

/-- An action candidate.  `rectN` is carried with the same shape as `rect`
(the source declares both as `Rect`); its values are never inspected by the
code verified here. -/
@[ext]
structure ActionCandidate where
  id : String
  rect : Rect
  rectN : Rect
  role : String
  tag : String
  name : String
  aria : String
  placeholder : Option String
  value : Option String
  href : Option String
  state : ActionState
  ctx : ActionContext
  styleHint : StyleHint
  hit : HitPoint
  occluded : Bool
  frameId : Option Nat
deriving DecidableEq

/-- A `Partial<ActionCandidate> & {id}` entry of a delta's `updated` list as
it reaches the gateway.  The entries arrive by JSON, so a missing field is
`none`; JSON cannot carry `undefined` values. -/
structure ActionCandidateUpdate where
  id : Option String
  rect : Option Rect
  rectN : Option Rect
  role : Option String
  tag : Option String
  name : Option String
  aria : Option String
  placeholder : Option String
  value : Option String
  href : Option String
  state : Option ActionState
  ctx : Option ActionContext
  styleHint : Option StyleHint
  hit : Option HitPoint
  occluded : Option Bool
  frameId : Option Nat
deriving DecidableEq

structure ActionMapDelta where
  tabId : Nat
  frameId : Nat
  timestamp : Int
  added : List ActionCandidate
  removed : List String
  updated : List ActionCandidateUpdate
deriving DecidableEq

structure Viewport where
  width : Nat
  height : Nat
deriving DecidableEq

/-! ## World-state store (`world-state.ts`) -/

namespace WorldStore

structure TabState where
  tabId : Nat
  url : String
  viewport : Viewport
  userAgent : String
  connectedAt : Int
  lastUpdate : Int
  candidates : List (String × ActionCandidate)
  deltaHistory : List ActionMapDelta
deriving DecidableEq

structure PointerState where
  x : Int
  y : Int
  buttons : Nat
deriving DecidableEq

structure WorldState where
  tabs : List (Nat × TabState)
  pointer : Option PointerState
deriving DecidableEq

def MAX_DELTA_HISTORY : Nat := 50

/-- `deltaHistory.push(delta)` followed by the shift-once-past-50 eviction. -/
def pushDeltaHistory (h : List ActionMapDelta) (d : ActionMapDelta) :
    List ActionMapDelta :=
  let h2 := h ++ [d]
  if MAX_DELTA_HISTORY < h2.length then h2.drop 1 else h2

/-- `Object.assign(existing, update)`: every field carried by the update
overwrites the candidate's field; absent fields are kept. -/
def assignUpdate (c : ActionCandidate) (u : ActionCandidateUpdate) :
    ActionCandidate where
  id := u.id.getD c.id
  rect := u.rect.getD c.rect
  rectN := u.rectN.getD c.rectN
  role := u.role.getD c.role
  tag := u.tag.getD c.tag
  name := u.name.getD c.name
  aria := u.aria.getD c.aria
  placeholder := (u.placeholder.map some).getD c.placeholder
  value := (u.value.map some).getD c.value
  href := (u.href.map some).getD c.href
  state := u.state.getD c.state
  ctx := u.ctx.getD c.ctx
  styleHint := u.styleHint.getD c.styleHint
  hit := u.hit.getD c.hit
  occluded := u.occluded.getD c.occluded
  frameId := (u.frameId.map some).getD c.frameId

/-- One iteration of the `for (const update of delta.updated)` loop:
`if (!update.id) continue;` (false for `undefined` and for the empty
string), then merge into the existing candidate if there is one. -/
def updStep (m : List (String × ActionCandidate)) (u : ActionCandidateUpdate) :
    List (String × ActionCandidate) :=
  match u.id with
  | none => m
  | some s =>
    if s = "" then m
    else
      match alFind? m s with
      | some existing => alSet m s (assignUpdate existing u)
      | none => m

/-- The candidate-map part of `handleDelta`: apply removals, then
additions, then updates — in the source's order. -/
def applyDeltaToCandidates (m : List (String × ActionCandidate))
    (d : ActionMapDelta) : List (String × ActionCandidate) :=
  d.updated.foldl updStep
    (d.added.foldl (fun m c => alSet m c.id c)
      (d.removed.foldl alErase m))

/-- The refreshed tab record built by `handleDelta` for an existing tab. -/
def deltaTab (ts : TabState) (d : ActionMapDelta) (now : Int) : TabState :=
  { ts with
    candidates := applyDeltaToCandidates ts.candidates d
    lastUpdate := now
    deltaHistory := pushDeltaHistory ts.deltaHistory d }

/-- `handleDelta`: drop the delta when the tab is unknown, otherwise apply
it and return the refreshed tab state (the source's return value). -/
def handleDelta (w : WorldState) (d : ActionMapDelta) (now : Int) :
    WorldState × Option TabState :=
  match alFind? w.tabs d.tabId with
  | none => (w, none)
  | some ts =>
    let ts' := deltaTab ts d now
    ({ w with tabs := alSet w.tabs d.tabId ts' }, some ts')

/-! ### Per-key characterization of `applyDeltaToCandidates` -/

/-- The last element of `added` carrying the given id (later `Map.set`
calls overwrite earlier ones). -/
def lastAdded (k : String) : List ActionCandidate → Option ActionCandidate
  | [] => none
  | c :: cs =>
    match lastAdded k cs with
    | some c' => some c'
    | none => if c.id = k then some c else none

/-- Whether an `updated` entry applies at key `k` (it carries a truthy `id`
equal to `k`). -/
def updApplies (k : String) (u : ActionCandidateUpdate) : Bool :=
  match u.id with
  | some s => decide (s = k) && !(decide (s = ""))
  | none => false

/-- The value-level effect of the update loop at one key. -/
def applyUpdatesAt (k : String) :
    List ActionCandidateUpdate → Option ActionCandidate → Option ActionCandidate
  | [], v => v
  | u :: us, v =>
    applyUpdatesAt k us (if updApplies k u then v.map (assignUpdate · u) else v)

theorem alFind?_removeFold (rs : List String)
    (m : List (String × ActionCandidate)) (k : String) :
    alFind? (rs.foldl alErase m) k =
      if k ∈ rs then none else alFind? m k := by
  induction rs generalizing m with
  | nil => simp
  | cons r rs ih =>
    by_cases h : k = r
    · subst h
      simp [List.foldl_cons, ih, alFind?_alErase]
    · simp [List.foldl_cons, ih, alFind?_alErase, h, Ne.symm h]

theorem alFind?_addFold (cs : List ActionCandidate)
    (m : List (String × ActionCandidate)) (k : String) :
    alFind? (cs.foldl (fun m c => alSet m c.id c) m) k =
      match lastAdded k cs with
      | some c => some c
      | none => alFind? m k := by
  induction cs generalizing m with
  | nil => simp [lastAdded]
  | cons c cs ih =>
    simp only [List.foldl_cons, ih, lastAdded]
    cases lastAdded k cs with
    | some c' => simp
    | none =>
      by_cases h : c.id = k <;> simp [alFind?_alSet, h]

theorem alFind?_updStep (m : List (String × ActionCandidate))
    (u : ActionCandidateUpdate) (k : String) :
    alFind? (updStep m u) k =
      if updApplies k u then (alFind? m k).map (assignUpdate · u)
      else alFind? m k := by
  unfold updStep updApplies
  cases hid : u.id with
  | none => simp
  | some s =>
    by_cases hs : s = ""
    · simp [hs]
    · by_cases hk : s = k
      · subst hk
        cases hm : alFind? m s with
        | none => simp [hs, hm, alFind?_alSet]
        | some ex => simp [hs, hm, alFind?_alSet]
      · cases hm : alFind? m s with
        | none => simp [hs, hk, hm]
        | some ex => simp [hs, hk, hm, alFind?_alSet]

theorem alFind?_updFold (us : List ActionCandidateUpdate)
    (m : List (String × ActionCandidate)) (k : String) :
    alFind? (us.foldl updStep m) k = applyUpdatesAt k us (alFind? m k) := by
  induction us generalizing m with
  | nil => simp [applyUpdatesAt]
  | cons u us ih =>
    simp only [List.foldl_cons, applyUpdatesAt, ih, alFind?_updStep]

/-- Per-key description of the whole delta application: removals first,
then additions (so an id both removed and added ends up present with its
added record), then the updates that carry this id. -/
theorem applyDeltaToCandidates_find? (m : List (String × ActionCandidate))
    (d : ActionMapDelta) (k : String) :
    alFind? (applyDeltaToCandidates m d) k =
      applyUpdatesAt k d.updated
        (match lastAdded k d.added with
         | some c => some c
         | none => if k ∈ d.removed then none else alFind? m k) := by
  unfold applyDeltaToCandidates
  rw [alFind?_updFold, alFind?_addFold]
  cases lastAdded k d.added with
  | some c => rfl
  | none => rw [alFind?_removeFold]

/-! ### Idempotence of the update merge -/

/-- The last value carried for one field by a list of updates (later
`Object.assign` calls overwrite earlier ones). -/
def lastCarried {α : Type} (get : ActionCandidateUpdate → Option α) :
    List ActionCandidateUpdate → Option α
  | [] => none
  | u :: us =>
    match lastCarried get us with
    | some v => some v
    | none => get u

theorem foldAssign_proj {α : Type} (get : ActionCandidateUpdate → Option α)
    (proj : ActionCandidate → α)
    (h : ∀ c u, proj (assignUpdate c u) = (get u).getD (proj c)) :
    ∀ (us : List ActionCandidateUpdate) (c : ActionCandidate),
      proj (us.foldl assignUpdate c) = (lastCarried get us).getD (proj c) := by
  intro us
  induction us with
  | nil => intro c; simp [lastCarried]
  | cons u us ih =>
    intro c
    simp only [List.foldl_cons, ih, h, lastCarried]
    cases lastCarried get us with
    | some v => simp
    | none => simp

theorem getD_getD {α : Type} (o : Option α) (x : α) :
    o.getD (o.getD x) = o.getD x := by
  cases o <;> rfl

/-- Folding the same list of updates a second time does not change the
candidate: each field ends up at the last value the list carries for it. -/
theorem foldAssign_absorb (us : List ActionCandidateUpdate)
    (c : ActionCandidate) :
    us.foldl assignUpdate (us.foldl assignUpdate c) = us.foldl assignUpdate c := by
  have h01 := foldAssign_proj (fun u => u.id) (fun c => c.id) (fun _ _ => rfl) us
  have h02 := foldAssign_proj (fun u => u.rect) (fun c => c.rect) (fun _ _ => rfl) us
  have h03 := foldAssign_proj (fun u => u.rectN) (fun c => c.rectN) (fun _ _ => rfl) us
  have h04 := foldAssign_proj (fun u => u.role) (fun c => c.role) (fun _ _ => rfl) us
  have h05 := foldAssign_proj (fun u => u.tag) (fun c => c.tag) (fun _ _ => rfl) us
  have h06 := foldAssign_proj (fun u => u.name) (fun c => c.name) (fun _ _ => rfl) us
  have h07 := foldAssign_proj (fun u => u.aria) (fun c => c.aria) (fun _ _ => rfl) us
  have h08 := foldAssign_proj (fun u => u.placeholder.map some)
    (fun c => c.placeholder) (fun _ _ => rfl) us
  have h09 := foldAssign_proj (fun u => u.value.map some)
    (fun c => c.value) (fun _ _ => rfl) us
  have h10 := foldAssign_proj (fun u => u.href.map some)
    (fun c => c.href) (fun _ _ => rfl) us
  have h11 := foldAssign_proj (fun u => u.state) (fun c => c.state) (fun _ _ => rfl) us
  have h12 := foldAssign_proj (fun u => u.ctx) (fun c => c.ctx) (fun _ _ => rfl) us
  have h13 := foldAssign_proj (fun u => u.styleHint)
    (fun c => c.styleHint) (fun _ _ => rfl) us
  have h14 := foldAssign_proj (fun u => u.hit) (fun c => c.hit) (fun _ _ => rfl) us
  have h15 := foldAssign_proj (fun u => u.occluded)
    (fun c => c.occluded) (fun _ _ => rfl) us
  have h16 := foldAssign_proj (fun u => u.frameId.map some)
    (fun c => c.frameId) (fun _ _ => rfl) us
  ext1
  · rw [h01, h01, getD_getD]
  · rw [h02, h02, getD_getD]
  · rw [h03, h03, getD_getD]
  · rw [h04, h04, getD_getD]
  · rw [h05, h05, getD_getD]
  · rw [h06, h06, getD_getD]
  · rw [h07, h07, getD_getD]
  · rw [h08, h08, getD_getD]
  · rw [h09, h09, getD_getD]
  · rw [h10, h10, getD_getD]
  · rw [h11, h11, getD_getD]
  · rw [h12, h12, getD_getD]
  · rw [h13, h13, getD_getD]
  · rw [h14, h14, getD_getD]
  · rw [h15, h15, getD_getD]
  · rw [h16, h16, getD_getD]

theorem applyUpdatesAt_eq_filterFold (k : String)
    (us : List ActionCandidateUpdate) (v : Option ActionCandidate) :
    applyUpdatesAt k us v =
      v.map (fun c => (us.filter (updApplies k)).foldl assignUpdate c) := by
  induction us generalizing v with
  | nil => cases v <;> simp [applyUpdatesAt]
  | cons u us ih =>
    simp only [applyUpdatesAt, List.filter_cons]
    cases hu : updApplies k u with
    | false => simp [hu, ih]
    | true =>
      cases v with
      | none => simp [hu, ih]
      | some c => simp [hu, ih]

theorem applyUpdatesAt_absorb (k : String) (us : List ActionCandidateUpdate)
    (v : Option ActionCandidate) :
    applyUpdatesAt k us (applyUpdatesAt k us v) = applyUpdatesAt k us v := by
  rw [applyUpdatesAt_eq_filterFold, applyUpdatesAt_eq_filterFold]
  cases v with
  | none => rfl
  | some c => simp [foldAssign_absorb]

theorem applyDeltaToCandidates_idem (m : List (String × ActionCandidate))
    (d : ActionMapDelta) (k : String) :
    alFind? (applyDeltaToCandidates (applyDeltaToCandidates m d) d) k =
      alFind? (applyDeltaToCandidates m d) k := by
  rw [applyDeltaToCandidates_find?, applyDeltaToCandidates_find? m]
  cases hla : lastAdded k d.added with
  | some c => rfl
  | none =>
    by_cases hr : k ∈ d.removed
    · simp [hr]
    · simp only [if_neg hr]
      exact applyUpdatesAt_absorb k d.updated _

/-- The candidate a world holds for a tab and key, if any. -/
def candidateAt (w : WorldState) (tabId : Nat) (k : String) :
    Option ActionCandidate :=
  (alFind? w.tabs tabId).bind fun ts => alFind? ts.candidates k

theorem handleDelta_found (w : WorldState) (d : ActionMapDelta) (now : Int)
    (ts : TabState) (h : alFind? w.tabs d.tabId = some ts) :
    handleDelta w d now =
      ({ w with tabs := alSet w.tabs d.tabId (deltaTab ts d now) },
        some (deltaTab ts d now)) := by
  simp [handleDelta, h]

/-! ### Concrete values used by witnesses and counterexamples -/

def sampleState : ActionState :=
  ⟨false, false, false, false, false⟩

def sampleCtx : ActionContext :=
  ⟨false, false, false, 3, none⟩

def sampleStyle : StyleHint :=
  ⟨false, false, true, none, none⟩

def candA : ActionCandidate :=
  { id := "a", rect := ⟨10, 10, 100, 30⟩, rectN := ⟨0, 0, 0, 0⟩
    role := "button", tag := "button", name := "Sign in", aria := ""
    placeholder := none, value := none, href := none
    state := sampleState, ctx := sampleCtx, styleHint := sampleStyle
    hit := ⟨60, 25⟩, occluded := false, frameId := none }

def ts0 : TabState :=
  { tabId := 1, url := "https://a/", viewport := ⟨1024, 768⟩, userAgent := ""
    connectedAt := 0, lastUpdate := 0, candidates := [], deltaHistory := [] }

def w0 : WorldState := ⟨[(1, ts0)], none⟩

/-- A delta in which the id "a" appears both in `added` and in `removed`. -/
def dBoth : ActionMapDelta :=
  { tabId := 1, frameId := 0, timestamp := 1
    added := [candA], removed := ["a"], updated := [] }

/-- Modelled from the claim's words (C1), for comparison with the source's
`handleDelta`: first form `prev ∪ added` (insertions overwriting), then
drop every id of `removed`, then merge `updated`. -/
def claimedDeltaToCandidates (m : List (String × ActionCandidate))
    (d : ActionMapDelta) : List (String × ActionCandidate) :=
  d.updated.foldl updStep
    (d.removed.foldl alErase
      (d.added.foldl (fun m c => alSet m c.id c) m))

/-- C1 (counterexample). On a delta whose id "a" is listed both in `added`
and in `removed`, the source's `handleDelta` leaves "a" present (removals
run before insertions), while the claim's formula `(prev ∪ added) \
removed` would leave it absent — so the claimed equality fails. -/
theorem delta_added_and_removed_id_survives :
    ((handleDelta w0 dBoth 5).2.map fun ts => alFind? ts.candidates "a") =
        some (some candA) ∧
      alFind? (claimedDeltaToCandidates ts0.candidates dBoth) "a" = none :=
  ⟨rfl, rfl⟩

/-- C1 (amended). For every delta whose tab exists, `handleDelta` stores
the refreshed tab, whose candidate map is: previous map with `removed`
erased first, then `added` inserted (overwriting, later entries winning),
then each `updated` entry carrying a truthy id merged field-by-field into
the candidate with that id.  An id in both `added` and `removed` therefore
ends up present with its added record. -/
theorem delta_remove_then_add_then_merge (w : WorldState)
    (d : ActionMapDelta) (now : Int) (ts : TabState)
    (h : alFind? w.tabs d.tabId = some ts) (k : String) :
    (handleDelta w d now).2 = some (deltaTab ts d now) ∧
      alFind? (handleDelta w d now).1.tabs d.tabId = some (deltaTab ts d now) ∧
      alFind? (deltaTab ts d now).candidates k =
        applyUpdatesAt k d.updated
          (match lastAdded k d.added with
           | some c => some c
           | none => if k ∈ d.removed then none else alFind? ts.candidates k) := by
  refine ⟨?_, ?_, ?_⟩
  · simp [handleDelta, h]
  · simp [handleDelta, h, alFind?_alSet]
  · exact applyDeltaToCandidates_find? ts.candidates d k

/-- Witness for C1's amended theorem at a concrete world and delta. -/
theorem delta_remove_then_add_then_merge_witness :
    alFind? w0.tabs dBoth.tabId = some ts0 ∧
      ((handleDelta w0 dBoth 5).2 = some (deltaTab ts0 dBoth 5) ∧
        alFind? (handleDelta w0 dBoth 5).1.tabs dBoth.tabId =
          some (deltaTab ts0 dBoth 5) ∧
        alFind? (deltaTab ts0 dBoth 5).candidates "a" =
          applyUpdatesAt "a" dBoth.updated
            (match lastAdded "a" dBoth.added with
             | some c => some c
             | none =>
               if "a" ∈ dBoth.removed then none
               else alFind? ts0.candidates "a")) :=
  ⟨rfl, delta_remove_then_add_then_merge w0 dBoth 5 ts0 rfl "a"⟩

/-- C3. Applying the same delta a second time, right after the first,
leaves the tab's candidate map unchanged: removals of absent ids are
no-ops, re-inserting an added candidate overwrites it with itself, and
re-merging the same updates changes no field. -/
theorem delta_replay_harmless (w : WorldState) (d : ActionMapDelta)
    (now now' : Int) (ts : TabState)
    (h : alFind? w.tabs d.tabId = some ts) (k : String) :
    candidateAt (handleDelta (handleDelta w d now).1 d now').1 d.tabId k =
      candidateAt (handleDelta w d now).1 d.tabId k := by
  have e1 := handleDelta_found w d now ts h
  have hfind1 : alFind? (handleDelta w d now).1.tabs d.tabId =
      some (deltaTab ts d now) := by
    rw [e1]
    simp [alFind?_alSet]
  have e2 := handleDelta_found (handleDelta w d now).1 d now'
    (deltaTab ts d now) hfind1
  rw [candidateAt, candidateAt, e2, hfind1]
  simp only [alFind?_alSet, if_pos rfl, Option.some_bind, deltaTab]
  exact applyDeltaToCandidates_idem ts.candidates d k

/-- Witness for C3 at a concrete world and delta. -/
theorem delta_replay_harmless_witness :
    alFind? w0.tabs dBoth.tabId = some ts0 ∧
      candidateAt (handleDelta (handleDelta w0 dBoth 5).1 dBoth 6).1
          dBoth.tabId "a" =
        candidateAt (handleDelta w0 dBoth 5).1 dBoth.tabId "a" :=
  ⟨rfl, delta_replay_harmless w0 dBoth 5 6 ts0 rfl "a"⟩

end WorldStore

/-! ## Commands (`protocol.ts`)

Only the fields consulted by the gateway pipeline and the policy layer are
carried; the operation-specific payloads (text, coordinates, ...) are never
read by the code verified here. -/

inductive CmdType where
  | click
  | type
  | hover
  | scroll
  | focus
  | select
  | moveMouse
  | query
deriving DecidableEq

structure Command where
  type : CmdType
  commandId : String
  tabId : Nat
  id : Option String
deriving DecidableEq

/-! ## String utilities

Models of the JS string operations the source uses: `toLowerCase` (ASCII
range; the verified inputs contain no characters with non-ASCII case
mappings), `includes`, `endsWith`, and regular-expression tests. -/

/-- `s.toLowerCase()` as a character list. -/
def lcList (s : String) : List Char := s.toList.map Char.toLower

/-- `s.toLowerCase()` as a string. -/
def lcStr (s : String) : String := String.mk (lcList s)

/-- `hay.includes(needle)` on character lists. -/
def listContains (needle : List Char) : List Char → Bool
  | [] => needle.isPrefixOf []
  | c :: rest => needle.isPrefixOf (c :: rest) || listContains needle rest

/-- `hay.toLowerCase().includes(needle.toLowerCase())`. -/
def containsCI (hay needle : String) : Bool :=
  listContains (lcList needle) (lcList hay)

/-- `s.endsWith(pat)`. -/
def strEndsWith (s pat : String) : Bool :=
  pat.toList.isSuffixOf s.toList

theorem isPrefixOf_eq_true_iff (p l : List Char) :
    p.isPrefixOf l = true ↔ ∃ t, l = p ++ t := by
  induction p generalizing l with
  | nil => simp [List.isPrefixOf]
  | cons a as ih =>
    cases l with
    | nil => simp [List.isPrefixOf]
    | cons b bs =>
      simp only [List.isPrefixOf, Bool.and_eq_true, beq_iff_eq, ih,
        List.cons_append]
      constructor
      · rintro ⟨rfl, t, rfl⟩
        exact ⟨t, rfl⟩
      · rintro ⟨t, ht⟩
        injection ht with h1 h2
        exact ⟨h1.symm, t, h2⟩

theorem listContains_eq_true_iff (n hay : List Char) :
    listContains n hay = true ↔ ∃ s t, hay = s ++ n ++ t := by
  induction hay with
  | nil =>
    simp only [listContains, isPrefixOf_eq_true_iff]
    constructor
    · rintro ⟨t, ht⟩
      exact ⟨[], t, by simpa using ht⟩
    · rintro ⟨s, t, ht⟩
      obtain ⟨h12, h3⟩ := List.append_eq_nil.mp ht.symm
      obtain ⟨hs, hn⟩ := List.append_eq_nil.mp h12
      exact ⟨t, by simp [hn, h3]⟩
  | cons c rest ih =>
    simp only [listContains, Bool.or_eq_true, isPrefixOf_eq_true_iff, ih]
    constructor
    · rintro (⟨t, ht⟩ | ⟨s, t, ht⟩)
      · exact ⟨[], t, by simpa using ht⟩
      · exact ⟨c :: s, t, by simp [ht]⟩
    · rintro ⟨s, t, ht⟩
      cases s with
      | nil => exact Or.inl ⟨t, by simpa using ht⟩
      | cons c' s' =>
        refine Or.inr ?_
        rw [List.cons_append, List.cons_append] at ht
        injection ht with h1 h2
        exact ⟨s', t, h2⟩

theorem listContains_map {n hay : List Char} (f : Char → Char)
    (h : listContains n hay = true) :
    listContains (n.map f) (hay.map f) = true := by
  rw [listContains_eq_true_iff] at h ⊢
  obtain ⟨s, t, rfl⟩ := h
  exact ⟨s.map f, t.map f, by simp⟩

theorem listContains_of_append_left {a b hay : List Char}
    (h : listContains (a ++ b) hay = true) :
    listContains a hay = true := by
  rw [listContains_eq_true_iff] at h ⊢
  obtain ⟨s, t, rfl⟩ := h
  exact ⟨s, b ++ t, by simp⟩

/-- ASCII approximation of the regex class `\s` (JS additionally matches
some Unicode spaces, which no verified input contains). -/
def isJsWs (c : Char) : Bool :=
  c == ' ' || c == '\t' || c == '\n' || c == '\r' || c == '\x0b' || c == '\x0c'

/-- Test of a regex of shape `a\s*b` (already lowercased by the caller):
some position starts with `a`, then a run of whitespace, then `b`.
Consuming the whole run is equivalent to the regex's backtracking because
none of the continuations `b` used below starts with whitespace. -/
def gapMatch (a b : List Char) : List Char → Bool
  | [] => a.isPrefixOf [] && b.isPrefixOf []
  | hay@(_ :: rest) =>
    (a.isPrefixOf hay && b.isPrefixOf (List.dropWhile isJsWs (hay.drop a.length)))
      || gapMatch a b rest

/-! ## Policy layer (`policy.ts`) -/

namespace Policy

inductive DomainMode where
  | allowlist
  | blocklist
  | all
deriving DecidableEq

structure PolicyConfig where
  domainMode : DomainMode
  domainList : List String
  blockPaymentActions : Bool
  blockDeleteActions : Bool
  requireUserPresent : Bool
  maxCommandsPerSecond : Nat
  maxCommandsPerMinute : Nat
  logAllCommands : Bool
deriving DecidableEq

def defaultConfig : PolicyConfig :=
  { domainMode := .all, domainList := []
    blockPaymentActions := true, blockDeleteActions := true
    requireUserPresent := false
    maxCommandsPerSecond := 10, maxCommandsPerMinute := 300
    logAllCommands := true }

/-- `PAYMENT_PATTERNS.some(p => p.test(name))` on the lowercased name. -/
def paymentPatternsTest (lc : List Char) : Bool :=
  listContains ("checkout".toList) lc ||
  listContains ("payment".toList) lc ||
  listContains ("purchase".toList) lc ||
  gapMatch ("buy".toList) ("now".toList) lc ||
  gapMatch ("place".toList) ("order".toList) lc ||
  gapMatch ("confirm".toList) ("order".toList) lc ||
  gapMatch ("submit".toList) ("order".toList) lc ||
  gapMatch ("pay".toList) ("$".toList) lc

/-- `DELETE_PATTERNS.some(p => p.test(name))` on the lowercased name. -/
def deletePatternsTest (lc : List Char) : Bool :=
  listContains ("delete".toList) lc ||
  listContains ("remove".toList) lc ||
  gapMatch ("clear".toList) ("all".toList) lc ||
  listContains ("destroy".toList) lc ||
  listContains ("erase".toList) lc

/-- JS truthiness of an optional string (`undefined` and `""` are falsy). -/
def truthyName : Option String → Bool
  | some s => !(s == "")
  | none => false

/-! ### Hostname extraction

Models `new URL(url).hostname` along the WHATWG basic URL parser:
* the input is trimmed of leading/trailing C0 controls and spaces, and
  tabs/newlines are removed everywhere;
* a valid scheme followed by `:` is required (no base URL is ever passed,
  so scheme-less input throws and yields `none`);
* for the special schemes (`http`, `https`, `ws`, `wss`, `ftp`, `file`)
  any run of `/` and `\x5c` after the colon is skipped and the authority
  runs to the next `/`, `\x5c`, `?` or `#`; a `userinfo@` part is dropped,
  a `:port` part must be numeric and at most 65535 (else the constructor
  throws); a non-`file` special URL with an empty host throws.  `file`
  URLs follow the file states instead: at most two slashes are skipped
  (`file:///p` has host `""`) and no port is accepted;
* for every other scheme, `//` introduces an authority the same way
  (without the backslash rules), and otherwise the URL is opaque-path and
  parses with hostname `""` — it carries no host for the domain check to
  match, but it does not throw.
The host is returned as written; `isDomainAllowed` lowercases it, as the
constructor's ASCII canonicalization would.  Percent-decoding, IPv6
bracket literals and IDNA of non-ASCII hosts are not modelled; no
verified input uses them. -/

def SPECIAL_SCHEMES : List (List Char) :=
  ["http".toList, "https".toList, "ws".toList, "wss".toList,
   "ftp".toList, "file".toList]

def isSpecialScheme (s : List Char) : Bool :=
  SPECIAL_SCHEMES.any (fun x => x == s)

/-- Remove every tab, line feed and carriage return. -/
def stripTabNewline (l : List Char) : List Char :=
  l.filter (fun c => !(c == '\t' || c == '\n' || c == '\r'))

/-- Trim leading and trailing C0 controls and spaces. -/
def trimC0Space (l : List Char) : List Char :=
  ((l.dropWhile (fun c => c.toNat ≤ 32)).reverse.dropWhile
    (fun c => c.toNat ≤ 32)).reverse

def schemeOk : List Char → Bool
  | [] => false
  | c :: rest =>
    c.isAlpha && rest.all (fun c => c.isAlphanum || c == '+' || c == '-' || c == '.')

/-- Everything after the last `@` (the authority's host-port part). -/
def afterLastAt (l : List Char) : List Char :=
  (l.reverse.takeWhile (fun c => c != '@')).reverse

def digitsToNat (l : List Char) : Nat :=
  l.foldl (fun acc c => acc * 10 + (c.toNat - 48)) 0

/-- A port part is valid when it is all digits (possibly empty) and at
most 65535; otherwise the constructor throws. -/
def portOk (l : List Char) : Bool :=
  l.all (fun c => c.isDigit) && decide (digitsToNat l ≤ 65535)

/-- Split an authority's host-port part: `none` when the port is invalid. -/
def splitHostPort (auth : List Char) : Option (List Char) :=
  let hostport := afterLastAt auth
  let host := hostport.takeWhile (fun c => c != ':')
  if host.length = hostport.length then some host
  else if portOk (hostport.drop (host.length + 1)) then some host
  else none

def isUrlSlash (c : Char) : Bool := c == '/' || c == '\x5c'

def urlHostname (url : String) : Option String :=
  let cs := stripTabNewline (trimC0Space url.toList)
  let scheme := cs.takeWhile (fun c => c != ':')
  if schemeOk scheme && decide (scheme.length < cs.length) then
    let rest := cs.drop (scheme.length + 1)
    let schemeL := scheme.map Char.toLower
    if schemeL == "file".toList then
      let r := match rest with
        | c1 :: c2 :: r' => if isUrlSlash c1 && isUrlSlash c2 then r' else []
        | _ => []
      let host := r.takeWhile
        (fun c => c != '/' && c != '\x5c' && c != '?' && c != '#')
      if host.any (fun c => c == ':') then none else some (String.mk host)
    else if isSpecialScheme schemeL then
      let r := rest.dropWhile isUrlSlash
      let auth := r.takeWhile
        (fun c => c != '/' && c != '\x5c' && c != '?' && c != '#')
      match splitHostPort auth with
      | none => none
      | some host =>
        if host.isEmpty then none else some (String.mk host)
    else
      match rest with
      | '/' :: '/' :: r =>
        let auth := r.takeWhile (fun c => c != '/' && c != '?' && c != '#')
        match splitHostPort auth with
        | none => none
        | some host => some (String.mk host)
      | _ => some ""
  else none

/-- One entry test of `isDomainAllowed`: the (lowercased) hostname equals
the lowercased entry or ends with `"." + entry`. -/
def hostMatches (domain d : String) : Bool :=
  domain == lcStr d || strEndsWith domain ("." ++ lcStr d)

def isDomainAllowed (cfg : PolicyConfig) (url : String) : Bool :=
  if cfg.domainMode = DomainMode.all then true
  else
    match urlHostname url with
    | none => false
    | some hn =>
      let domain := lcStr hn
      let matched := cfg.domainList.any (fun d => hostMatches domain d)
      if cfg.domainMode = DomainMode.allowlist then matched else !matched

def isPaymentAction (cfg : PolicyConfig) (_command : Command)
    (elementName : Option String) : Bool :=
  if !cfg.blockPaymentActions then false
  else
    match elementName with
    | none => false
    | some s => if s == "" then false else paymentPatternsTest (lcList s)

def isDeleteAction (cfg : PolicyConfig) (_command : Command)
    (elementName : Option String) : Bool :=
  if !cfg.blockDeleteActions then false
  else
    match elementName with
    | none => false
    | some s => if s == "" then false else deletePatternsTest (lcList s)

structure RateLimitResult where
  allowed : Bool
  reason : Option String
deriving DecidableEq

/-- `checkRateLimits` together with the history it leaves behind (the
source's `while ... shift()` loop mutates the shared array). -/
def checkRateLimits (cfg : PolicyConfig) (hist : List Int) (now : Int) :
    RateLimitResult × List Int :=
  let cleaned := hist.dropWhile (fun t : Int => decide (t < now - 60000))
  if cfg.maxCommandsPerMinute ≤ cleaned.length then
    (⟨false, some "Rate limit exceeded (per minute)"⟩, cleaned)
  else if cfg.maxCommandsPerSecond ≤
      (cleaned.filter (fun t : Int => decide (now - 1000 < t))).length then
    (⟨false, some "Rate limit exceeded (per second)"⟩, cleaned)
  else
    (⟨true, none⟩, cleaned)

structure PolicyCheckResult where
  allowed : Bool
  reason : Option String
  warnings : List String
deriving DecidableEq

/-- `checkCommand` together with the command history it leaves behind.
`recordCommand` appends the current time only on the all-checks-pass
path. -/
def checkCommand (c : Command) (tabUrl : Option String)
    (elementName : Option String) (cfg : PolicyConfig) (hist : List Int)
    (now : Int) : PolicyCheckResult × List Int :=
  if (match tabUrl with
      | some u => !(u == "") && !(isDomainAllowed cfg u)
      | none => false) then
    (⟨false, some ("Domain not allowed: " ++ tabUrl.getD ""), []⟩, hist)
  else
    let rc := checkRateLimits cfg hist now
    if rc.1.allowed = false then
      (⟨false, rc.1.reason, []⟩, rc.2)
    else if (c.type = CmdType.click ∨ c.type = CmdType.type) ∧
        isPaymentAction cfg c elementName = true then
      (⟨false, some ("Payment action blocked: " ++ elementName.getD ""), []⟩, rc.2)
    else if (c.type = CmdType.click ∨ c.type = CmdType.type) ∧
        isDeleteAction cfg c elementName = true then
      (⟨false, some ("Delete action blocked: " ++ elementName.getD ""), []⟩, rc.2)
    else
      (⟨true, none, []⟩, rc.2 ++ [now])

end Policy

namespace Policy

/-! ### Rate-limit windows (C4) -/

/-- Entries of the history within the last 60 seconds (inclusive bound:
the cleanup keeps exactly the entries not strictly older). -/
def countLast60 (hist : List Int) (now : Int) : Nat :=
  (hist.filter (fun t : Int => decide (now - 60000 ≤ t))).length

/-- Entries of the history within the last second (strict bound, as in the
source's `t > oneSecondAgo`). -/
def countLast1 (hist : List Int) (now : Int) : Nat :=
  (hist.filter (fun t : Int => decide (now - 1000 < t))).length

/-- On a sorted history — the invariant of the append-only `Date.now()`
history — the head-dropping cleanup loop keeps exactly the recent
entries. -/
theorem dropWhile_lt_eq_filter (a : Int) (l : List Int)
    (h : l.Pairwise (· ≤ ·)) :
    l.dropWhile (fun t : Int => decide (t < a)) =
      l.filter (fun t : Int => decide (a ≤ t)) := by
  induction l with
  | nil => rfl
  | cons x xs ih =>
    rw [List.pairwise_cons] at h
    obtain ⟨hx, hxs⟩ := h
    by_cases hlt : x < a
    · rw [List.dropWhile_cons, List.filter_cons]
      simp [hlt, show ¬ (a ≤ x) by omega, ih hxs]
    · have ha : a ≤ x := not_lt.mp hlt
      rw [List.dropWhile_cons, List.filter_cons]
      have hrest : xs.filter (fun t : Int => decide (a ≤ t)) = xs :=
        List.filter_eq_self.mpr fun y hy => decide_eq_true (le_trans ha (hx y hy))
      simp [hlt, ha, hrest]

theorem checkRateLimits_allowed_iff (cfg : PolicyConfig) (hist : List Int)
    (now : Int) (h : hist.Pairwise (· ≤ ·)) :
    (checkRateLimits cfg hist now).1.allowed = false ↔
      cfg.maxCommandsPerMinute ≤ countLast60 hist now ∨
      cfg.maxCommandsPerSecond ≤ countLast1 hist now := by
  have hclean : hist.dropWhile (fun t : Int => decide (t < now - 60000)) =
      hist.filter (fun t : Int => decide (now - 60000 ≤ t)) :=
    dropWhile_lt_eq_filter _ _ h
  have hfilter :
      (hist.filter (fun t : Int => decide (now - 60000 ≤ t))).filter
          (fun t : Int => decide (now - 1000 < t)) =
        hist.filter (fun t : Int => decide (now - 1000 < t)) := by
    rw [List.filter_filter]
    exact List.filter_congr fun t _ => by
      by_cases hb : now - 1000 < t
      · simp [hb, show now - 60000 ≤ t by omega]
      · simp [hb]
  simp only [checkRateLimits]
  rw [hclean, hfilter]
  split_ifs with h1 h2 <;>
    simp_all [countLast60, countLast1]

theorem checkRateLimits_snd (cfg : PolicyConfig) (hist : List Int) (now : Int) :
    (checkRateLimits cfg hist now).2 =
      hist.dropWhile (fun t : Int => decide (t < now - 60000)) := by
  simp only [checkRateLimits]
  split_ifs <;> rfl

theorem checkCommand_hist (c : Command) (tabUrl elementName : Option String)
    (cfg : PolicyConfig) (hist : List Int) (now : Int) :
    ((checkCommand c tabUrl elementName cfg hist now).1.allowed = true →
      (checkCommand c tabUrl elementName cfg hist now).2 =
        hist.dropWhile (fun t : Int => decide (t < now - 60000)) ++ [now]) ∧
    ((checkCommand c tabUrl elementName cfg hist now).1.allowed = false →
      (checkCommand c tabUrl elementName cfg hist now).2 = hist ∨
      (checkCommand c tabUrl elementName cfg hist now).2 =
        hist.dropWhile (fun t : Int => decide (t < now - 60000))) := by
  simp only [checkCommand]
  split_ifs with h1 h2 h3 h4
  · exact ⟨fun h => absurd h (by simp), fun _ => Or.inl rfl⟩
  · exact ⟨fun h => absurd h (by simp),
      fun _ => Or.inr (checkRateLimits_snd cfg hist now)⟩
  · exact ⟨fun h => absurd h (by simp),
      fun _ => Or.inr (checkRateLimits_snd cfg hist now)⟩
  · exact ⟨fun h => absurd h (by simp),
      fun _ => Or.inr (checkRateLimits_snd cfg hist now)⟩
  · exact ⟨fun _ => by rw [checkRateLimits_snd], fun h => absurd h (by simp)⟩

theorem two_acts_within_second (cfg : PolicyConfig) (c1 c2 : Command)
    (t1 t2 : Int) (hsec : cfg.maxCommandsPerSecond = 1)
    (hmin : 2 ≤ cfg.maxCommandsPerMinute) (h12 : t1 ≤ t2)
    (hlt : t2 < t1 + 1000) :
    checkCommand c1 none none cfg [] t1 = (⟨true, none, []⟩, [t1]) ∧
    (checkCommand c2 none none cfg [t1] t2).1 =
      ⟨false, some "Rate limit exceeded (per second)", []⟩ := by
  have hm0 : ¬ (cfg.maxCommandsPerMinute ≤ 0) := by omega
  have hm1 : ¬ (cfg.maxCommandsPerMinute ≤ 1) := by omega
  have hs0 : ¬ (cfg.maxCommandsPerSecond ≤ 0) := by omega
  have e1 : ¬ (t1 < t2 - 60000) := by omega
  have e2 : t2 - 1000 < t1 := by omega
  constructor
  · simp [checkCommand, checkRateLimits, hm0, hs0,
      isPaymentAction, isDeleteAction]
  · simp [checkCommand, checkRateLimits, List.dropWhile_cons,
      List.filter_cons, e1, e2, hm1, hsec]

/-- C4.  The rate-limit check denies exactly when the count of history
entries in the last 60 seconds reaches `maxCommandsPerMinute` or the count
in the last second reaches `maxCommandsPerSecond`; `checkCommand` appends
the current time to the history exactly when the whole check allows the
command (denials leave the history, at most cleaned of expired entries);
and with `maxCommandsPerSecond = 1`, of two acts within 1000 ms the first
is allowed and the second is denied with the reason
"Rate limit exceeded (per second)", which contains "per second". -/
theorem rate_limit_dual_window :
    (∀ (cfg : PolicyConfig) (hist : List Int) (now : Int),
      hist.Pairwise (· ≤ ·) →
      ((checkRateLimits cfg hist now).1.allowed = false ↔
        cfg.maxCommandsPerMinute ≤ countLast60 hist now ∨
        cfg.maxCommandsPerSecond ≤ countLast1 hist now)) ∧
    (∀ (c : Command) (tabUrl elementName : Option String) (cfg : PolicyConfig)
        (hist : List Int) (now : Int),
      ((checkCommand c tabUrl elementName cfg hist now).1.allowed = true →
        (checkCommand c tabUrl elementName cfg hist now).2 =
          hist.dropWhile (fun t : Int => decide (t < now - 60000)) ++ [now]) ∧
      ((checkCommand c tabUrl elementName cfg hist now).1.allowed = false →
        (checkCommand c tabUrl elementName cfg hist now).2 = hist ∨
        (checkCommand c tabUrl elementName cfg hist now).2 =
          hist.dropWhile (fun t : Int => decide (t < now - 60000)))) ∧
    (∀ (cfg : PolicyConfig) (c1 c2 : Command) (t1 t2 : Int),
      cfg.maxCommandsPerSecond = 1 → 2 ≤ cfg.maxCommandsPerMinute →
      t1 ≤ t2 → t2 < t1 + 1000 →
      checkCommand c1 none none cfg [] t1 = (⟨true, none, []⟩, [t1]) ∧
      (checkCommand c2 none none cfg [t1] t2).1 =
        ⟨false, some "Rate limit exceeded (per second)", []⟩ ∧
      listContains ("per second".toList)
        ("Rate limit exceeded (per second)".toList) = true) :=
  ⟨checkRateLimits_allowed_iff,
   checkCommand_hist,
   fun cfg c1 c2 t1 t2 hsec hmin h12 hlt =>
     ⟨(two_acts_within_second cfg c1 c2 t1 t2 hsec hmin h12 hlt).1,
      (two_acts_within_second cfg c1 c2 t1 t2 hsec hmin h12 hlt).2,
      by decide⟩⟩

def cmdClick1 : Command := ⟨CmdType.click, "cmd_1", 1, some "a"⟩

def cmdType1 : Command := ⟨CmdType.type, "cmd_2", 1, some "a"⟩

def cmdHover1 : Command := ⟨CmdType.hover, "cmd_3", 1, some "a"⟩

def cfgOnePerSec : PolicyConfig := { defaultConfig with maxCommandsPerSecond := 1 }

/-- Witness for C4 at a concrete config, history and two timestamps. -/
theorem rate_limit_dual_window_witness :
    ([ (0 : Int) ].Pairwise (· ≤ ·) ∧
      ((checkRateLimits defaultConfig [0] 500).1.allowed = false ↔
        defaultConfig.maxCommandsPerMinute ≤ countLast60 [0] 500 ∨
        defaultConfig.maxCommandsPerSecond ≤ countLast1 [0] 500)) ∧
    ((checkCommand cmdHover1 none none defaultConfig [0] 500).1.allowed = true →
      (checkCommand cmdHover1 none none defaultConfig [0] 500).2 =
        ([0] : List Int).dropWhile (fun t : Int => decide (t < 500 - 60000)) ++ [500]) ∧
    (cfgOnePerSec.maxCommandsPerSecond = 1 ∧ 2 ≤ cfgOnePerSec.maxCommandsPerMinute ∧
      (0 : Int) ≤ 500 ∧ (500 : Int) < 0 + 1000 ∧
      checkCommand cmdClick1 none none cfgOnePerSec [] 0 = (⟨true, none, []⟩, [0]) ∧
      (checkCommand cmdHover1 none none cfgOnePerSec [0] 500).1 =
        ⟨false, some "Rate limit exceeded (per second)", []⟩) :=
  ⟨⟨by decide, rate_limit_dual_window.1 defaultConfig [0] 500 (by decide)⟩,
   (rate_limit_dual_window.2.1 cmdHover1 none none defaultConfig [0] 500).1,
   by decide, by decide, by decide, by decide,
   (rate_limit_dual_window.2.2 cfgOnePerSec cmdClick1 cmdHover1 0 500
      rfl (by decide) (by decide) (by decide)).1,
   (rate_limit_dual_window.2.2 cfgOnePerSec cmdClick1 cmdHover1 0 500
      rfl (by decide) (by decide) (by decide)).2.1⟩

end Policy

namespace Policy

/-! ### Domain filtering (C5) -/

def allowlistExampleCfg : PolicyConfig :=
  { defaultConfig with
    domainMode := .allowlist, domainList := ["example.com"] }

/-- C5.  Domain admission: mode `all` always passes; in the list modes a
url without an extractable host fails closed; in `allowlist` mode a url
passes exactly when its (lowercased) host equals some list entry
(lowercased) or ends in `"." ++ entry` — i.e. is a subdomain of it — and
in `blocklist` mode exactly when it does not.  In particular, with an
allowlist of `["example.com"]`, `https://sub.example.com/x` is allowed and
`https://other.com` is denied. -/
theorem domain_check_modes (cfg : PolicyConfig) (url : String) :
    (cfg.domainMode = DomainMode.all → isDomainAllowed cfg url = true) ∧
    (cfg.domainMode ≠ DomainMode.all → urlHostname url = none →
      isDomainAllowed cfg url = false) ∧
    (∀ hn, urlHostname url = some hn → cfg.domainMode = DomainMode.allowlist →
      (isDomainAllowed cfg url = true ↔
        ∃ d ∈ cfg.domainList, hostMatches (lcStr hn) d = true)) ∧
    (∀ hn, urlHostname url = some hn → cfg.domainMode = DomainMode.blocklist →
      (isDomainAllowed cfg url = true ↔
        ¬ ∃ d ∈ cfg.domainList, hostMatches (lcStr hn) d = true)) ∧
    isDomainAllowed allowlistExampleCfg "https://sub.example.com/x" = true ∧
    isDomainAllowed allowlistExampleCfg "https://other.com" = false := by
  refine ⟨?_, ?_, ?_, ?_, ?_, ?_⟩
  · intro h
    simp [isDomainAllowed, h]
  · intro h1 h2
    simp [isDomainAllowed, h1, h2]
  · intro hn hhn hmode
    have hala : isDomainAllowed cfg url =
        (cfg.domainList.any fun d => hostMatches (lcStr hn) d) := by
      simp [isDomainAllowed, hmode, hhn]
    rw [hala, List.any_eq_true]
  · intro hn hhn hmode
    have hala : isDomainAllowed cfg url =
        !(cfg.domainList.any fun d => hostMatches (lcStr hn) d) := by
      simp [isDomainAllowed, hmode, hhn]
    rw [hala]
    cases hany : (cfg.domainList.any fun d => hostMatches (lcStr hn) d) <;>
      simp [hany, ← List.any_eq_true]
  · rfl
  · rfl

/-- Witness for C5 at a concrete config and url. -/
theorem domain_check_modes_witness :
    urlHostname "https://sub.example.com/x" = some "sub.example.com" ∧
      allowlistExampleCfg.domainMode = DomainMode.allowlist ∧
      (isDomainAllowed allowlistExampleCfg "https://sub.example.com/x" = true ↔
        ∃ d ∈ allowlistExampleCfg.domainList,
          hostMatches (lcStr "sub.example.com") d = true) :=
  ⟨rfl, rfl,
    (domain_check_modes allowlistExampleCfg "https://sub.example.com/x").2.2.1
      "sub.example.com" rfl rfl⟩

/-! ### Action-name pattern scope (C6) -/

/-- Toggling the payment/delete flags off cannot change the outcome when
the command is neither a click nor a type, or when the element name is
unknown (absent or empty): the pattern checks never fire there. -/
theorem checkCommand_patterns_unreachable (cfg : PolicyConfig) (c : Command)
    (tabUrl elementName : Option String) (hist : List Int) (now : Int)
    (h : (c.type ≠ CmdType.click ∧ c.type ≠ CmdType.type) ∨
      truthyName elementName = false) :
    checkCommand c tabUrl elementName cfg hist now =
      checkCommand c tabUrl elementName
        { cfg with blockPaymentActions := false, blockDeleteActions := false }
        hist now := by
  have hdom : ∀ u, isDomainAllowed
      { cfg with blockPaymentActions := false, blockDeleteActions := false } u =
      isDomainAllowed cfg u := fun _ => rfl
  have hrl : checkRateLimits
      { cfg with blockPaymentActions := false, blockDeleteActions := false } =
      checkRateLimits cfg := rfl
  rcases h with ⟨hc, ht⟩ | ht
  · have hcond : ¬ (c.type = CmdType.click ∨ c.type = CmdType.type) := by
      rintro (h' | h')
      exacts [hc h', ht h']
    simp [checkCommand, hcond, hdom, hrl]
  · have hp : ∀ cfg' : PolicyConfig, isPaymentAction cfg' c elementName = false := by
      intro cfg'
      cases elementName with
      | none => simp [isPaymentAction]
      | some s =>
        have hs : s = "" := by simpa [truthyName] using ht
        subst hs
        simp [isPaymentAction]
    have hd : ∀ cfg' : PolicyConfig, isDeleteAction cfg' c elementName = false := by
      intro cfg'
      cases elementName with
      | none => simp [isDeleteAction]
      | some s =>
        have hs : s = "" := by simpa [truthyName] using ht
        subst hs
        simp [isDeleteAction]
    simp [checkCommand, hp, hd, hdom, hrl]

/-- Under the default config (delete blocking on), a name containing
"Delete account" denies click and type but leaves hover untouched by the
pattern check (it is fully allowed). -/
theorem delete_account_name_cases (cClick cType2 cHover : Command)
    (name : String) (now : Int)
    (hck : cClick.type = CmdType.click) (hty : cType2.type = CmdType.type)
    (hhv : cHover.type = CmdType.hover)
    (h : listContains ("Delete account".toList) name.toList = true) :
    (checkCommand cClick none (some name) defaultConfig [] now).1.allowed = false ∧
    (checkCommand cType2 none (some name) defaultConfig [] now).1.allowed = false ∧
    (checkCommand cHover none (some name) defaultConfig [] now).1.allowed = true := by
  have hne : ¬ name = "" := by
    intro he
    rw [he] at h
    exact absurd h (by decide)
  have h1 := listContains_map Char.toLower h
  have h2 : ("Delete account".toList.map Char.toLower) = "delete account".toList := by
    decide
  rw [h2] at h1
  have h3 : listContains ("delete".toList) (name.toList.map Char.toLower) = true := by
    have hsplit : ("delete account".toList) = "delete".toList ++ " account".toList := by
      decide
    rw [hsplit] at h1
    exact listContains_of_append_left h1
  have h3' : listContains ("delete".toList) (lcList name) = true := h3
  have hDel : deletePatternsTest (lcList name) = true := by
    unfold deletePatternsTest
    rw [h3']
    simp
  have hDelAct : ∀ c' : Command, isDeleteAction defaultConfig c' (some name) = true := by
    intro c'
    simp [isDeleteAction, defaultConfig, hne, hDel]
  have hrate : checkRateLimits defaultConfig [] now = (⟨true, none⟩, []) := rfl
  refine ⟨?_, ?_, ?_⟩
  · by_cases hpay : isPaymentAction defaultConfig cClick (some name) = true
    · simp [checkCommand, hrate, hck, hpay]
    · simp [checkCommand, hrate, hck, hpay, hDelAct]
  · by_cases hpay : isPaymentAction defaultConfig cType2 (some name) = true
    · simp [checkCommand, hrate, hty, hpay]
    · simp [checkCommand, hrate, hty, hpay, hDelAct]
  · have hcond : ¬ (cHover.type = CmdType.click ∨ cHover.type = CmdType.type) := by
      rw [hhv]
      rintro (h' | h') <;> exact absurd h' (by decide)
    simp [checkCommand, hrate, hcond]

/-- C6.  The payment/delete pattern checks apply only to click and type
commands with a known (truthy) element name: for any other command the
result is the same as with both pattern flags off; and under
`blockDeleteActions = true` (the default), a name containing
"Delete account" denies click and type but not hover. -/
theorem action_pattern_scope :
    (∀ (cfg : PolicyConfig) (c : Command) (tabUrl elementName : Option String)
        (hist : List Int) (now : Int),
      ((c.type ≠ CmdType.click ∧ c.type ≠ CmdType.type) ∨
        truthyName elementName = false) →
      checkCommand c tabUrl elementName cfg hist now =
        checkCommand c tabUrl elementName
          { cfg with blockPaymentActions := false, blockDeleteActions := false }
          hist now) ∧
    (∀ (cClick cType2 cHover : Command) (name : String) (now : Int),
      cClick.type = CmdType.click → cType2.type = CmdType.type →
      cHover.type = CmdType.hover →
      listContains ("Delete account".toList) name.toList = true →
      (checkCommand cClick none (some name) defaultConfig [] now).1.allowed
          = false ∧
      (checkCommand cType2 none (some name) defaultConfig [] now).1.allowed
          = false ∧
      (checkCommand cHover none (some name) defaultConfig [] now).1.allowed
          = true) :=
  ⟨checkCommand_patterns_unreachable,
   fun cClick cType2 cHover name now hck hty hhv h =>
     delete_account_name_cases cClick cType2 cHover name now hck hty hhv h⟩

/-- Witness for C6 at a concrete scroll command (flag-off equality) and at
the concrete name "Delete my account" for click, type and hover. -/
theorem action_pattern_scope_witness :
    ((⟨CmdType.scroll, "cmd_4", 1, none⟩ : Command).type ≠ CmdType.click ∧
      (⟨CmdType.scroll, "cmd_4", 1, none⟩ : Command).type ≠ CmdType.type) ∧
    (checkCommand ⟨CmdType.scroll, "cmd_4", 1, none⟩ none (some "Buy now")
        defaultConfig [] 7 =
      checkCommand ⟨CmdType.scroll, "cmd_4", 1, none⟩ none (some "Buy now")
        { defaultConfig with
          blockPaymentActions := false, blockDeleteActions := false } [] 7) ∧
    listContains ("Delete account".toList) ("Delete account?".toList) = true ∧
    ((checkCommand cmdClick1 none (some "Delete account?") defaultConfig [] 7).1.allowed
        = false ∧
      (checkCommand cmdType1 none (some "Delete account?") defaultConfig [] 7).1.allowed
        = false ∧
      (checkCommand cmdHover1 none (some "Delete account?") defaultConfig [] 7).1.allowed
        = true) :=
  ⟨⟨by decide, by decide⟩,
   action_pattern_scope.1 defaultConfig ⟨CmdType.scroll, "cmd_4", 1, none⟩
     none (some "Buy now") [] 7 (Or.inl ⟨by decide, by decide⟩),
   by decide,
   action_pattern_scope.2 cmdClick1 cmdType1 cmdHover1 "Delete account?" 7
     rfl rfl rfl (by decide)⟩

end Policy

/-! ## Command acknowledgments (`protocol.ts`) -/

structure Verification where
  id : String
  stillVisible : Bool
  hitTestOk : Bool
  rectChanged : Bool
  newRect : Option Rect
deriving DecidableEq

/-- The three ack variants.  The `result` payload of an `ok` ack is opaque
to the gateway; a string stands in for it. -/
inductive CommandAck where
  | ok (commandId : String) (timestamp : Int) (result : Option String)
  | fail (commandId : String) (reason : String) (timestamp : Int)
  | verify (commandId : String) (timestamp : Int) (verification : Verification)
deriving DecidableEq

def CommandAck.commandId : CommandAck → String
  | .ok c _ _ => c
  | .fail c _ _ => c
  | .verify c _ _ => c

/-! ## Gateway server (`server.ts`) -/

namespace Server

open WorldStore Policy

/-- `if (!command.commandId) command.commandId = generateCommandId()`:
the fresh id the generator would produce is passed in. -/
def ensureCid (c : Command) (fresh : String) : String :=
  if c.commandId = "" then fresh else c.commandId

def withCid (c : Command) (fresh : String) : Command :=
  { c with commandId := ensureCid c fresh }

/-- `getTab(command.tabId)?.url`. -/
def tabUrlOf (w : WorldState) (c : Command) : Option String :=
  (alFind? w.tabs c.tabId).map (·.url)

/-- `tab?.candidates.get((command as any).id)?.name` (commands without an
`id` field look up `undefined` and find nothing). -/
def candNameOf (w : WorldState) (c : Command) : Option String :=
  match alFind? w.tabs c.tabId, c.id with
  | some ts, some i => (alFind? ts.candidates i).map (·.name)
  | _, _ => none

inductive ExecOutcome where
  | immediate (ack : CommandAck)
  | sent (commandId : String)
deriving DecidableEq

/-- Result of one `executeCommand` call: its controller-visible outcome
(an immediately resolved ack, or a pending entry awaiting the agent), the
pending table and policy history it leaves, and the frames it sent to the
agent socket.  Pending entries carry the 30-second deadline their timer
was armed with. -/
structure ExecResult where
  outcome : ExecOutcome
  pending : List (String × Int)
  hist : List Int
  agentSends : List Command
deriving DecidableEq

def COMMAND_TIMEOUT_MS : Int := 30000

def executeCommandStep (w : WorldState) (cfg : PolicyConfig) (hist : List Int)
    (agentOpen : Bool) (pending : List (String × Int)) (c : Command)
    (fresh : String) (now : Int) : ExecResult :=
  let c' := withCid c fresh
  let pr := checkCommand c' (tabUrlOf w c) (candNameOf w c) cfg hist now
  if pr.1.allowed = false then
    ⟨.immediate (.fail (ensureCid c fresh) (pr.1.reason.getD "Policy denied") now),
      pending, pr.2, []⟩
  else if agentOpen = false then
    ⟨.immediate (.fail (ensureCid c fresh) "No extension connected" now),
      pending, pr.2, []⟩
  else
    ⟨.sent (ensureCid c fresh),
      (ensureCid c fresh, now + COMMAND_TIMEOUT_MS) :: pending, pr.2, [c']⟩

/-- C7.  A command the policy denies is answered by an immediately
synthesized fail ack carrying the policy's reason ("Policy denied" only if
the policy gave none, which it never does), nothing is sent to the agent,
and the pending table is untouched; a domain denial's reason is
"Domain not allowed: " followed by the tab url. -/
theorem policy_denied_immediate_fail (w : WorldState) (cfg : PolicyConfig)
    (hist : List Int) (agentOpen : Bool) (pending : List (String × Int))
    (c : Command) (fresh : String) (now : Int)
    (hdeny : (checkCommand (withCid c fresh) (tabUrlOf w c) (candNameOf w c)
        cfg hist now).1.allowed = false) :
    (executeCommandStep w cfg hist agentOpen pending c fresh now).outcome =
      ExecOutcome.immediate (CommandAck.fail (ensureCid c fresh)
        (((checkCommand (withCid c fresh) (tabUrlOf w c) (candNameOf w c)
            cfg hist now).1.reason).getD "Policy denied") now) ∧
    (executeCommandStep w cfg hist agentOpen pending c fresh now).agentSends = [] ∧
    (executeCommandStep w cfg hist agentOpen pending c fresh now).pending = pending ∧
    (∀ u, tabUrlOf w c = some u → u ≠ "" → isDomainAllowed cfg u = false →
      (checkCommand (withCid c fresh) (tabUrlOf w c) (candNameOf w c)
          cfg hist now).1.reason = some ("Domain not allowed: " ++ u)) := by
  refine ⟨?_, ?_, ?_, ?_⟩
  · simp [executeCommandStep, hdeny]
  · simp [executeCommandStep, hdeny]
  · simp [executeCommandStep, hdeny]
  · intro u hu hne hdom
    simp [checkCommand, hu, hne, hdom]

def cfgAllowB : PolicyConfig :=
  { defaultConfig with domainMode := .allowlist, domainList := ["b.com"] }

/-- Witness for C7: allowlist `["b.com"]`, tab url `https://a/`, a click
command — the ack reason is "Domain not allowed: https://a/". -/
theorem policy_denied_immediate_fail_witness :
    (checkCommand (withCid cmdClick1 "f") (tabUrlOf w0 cmdClick1)
        (candNameOf w0 cmdClick1) cfgAllowB [] 3).1.allowed = false ∧
    (executeCommandStep w0 cfgAllowB [] true [] cmdClick1 "f" 3).outcome =
      ExecOutcome.immediate (CommandAck.fail (ensureCid cmdClick1 "f")
        (((checkCommand (withCid cmdClick1 "f") (tabUrlOf w0 cmdClick1)
            (candNameOf w0 cmdClick1) cfgAllowB [] 3).1.reason).getD
          "Policy denied") 3) ∧
    (executeCommandStep w0 cfgAllowB [] true [] cmdClick1 "f" 3).agentSends = [] ∧
    (executeCommandStep w0 cfgAllowB [] true [] cmdClick1 "f" 3).pending = [] ∧
    (checkCommand (withCid cmdClick1 "f") (tabUrlOf w0 cmdClick1)
        (candNameOf w0 cmdClick1) cfgAllowB [] 3).1.reason =
      some ("Domain not allowed: " ++ "https://a/") :=
  ⟨by decide,
   (policy_denied_immediate_fail w0 cfgAllowB [] true [] cmdClick1 "f" 3
      (by decide)).1,
   (policy_denied_immediate_fail w0 cfgAllowB [] true [] cmdClick1 "f" 3
      (by decide)).2.1,
   (policy_denied_immediate_fail w0 cfgAllowB [] true [] cmdClick1 "f" 3
      (by decide)).2.2.1,
   (policy_denied_immediate_fail w0 cfgAllowB [] true [] cmdClick1 "f" 3
      (by decide)).2.2.2 "https://a/" rfl (by decide) (by decide)⟩

end Server

namespace Server

open WorldStore Policy

/-! ### Ack correlation as a state machine (C2)

The gateway's mutable state relevant to command resolution, and the three
kinds of events that touch it: a controller `act` submission (running
`executeCommand`), an inbound agent ack (`handleCommandAck`), and the
firing of a pending command's 30-second timer.  Each step returns the
outputs the gateway emits: the resolution delivered to the waiting `act`
caller, frames sent to the agent, and `broadcastToRepl` deliveries to
controller connections (held as their subscription filters). -/

structure GwState where
  world : WorldState
  cfg : PolicyConfig
  hist : List Int
  agentOpen : Bool
  pending : List (String × Int)
  controllers : List (Option Nat)
deriving DecidableEq

inductive GwEvent where
  | submit (c : Command) (fresh : String) (now : Int)
  | agentAck (a : CommandAck) (msgTabId : Option Nat)
  | timeoutFire (cid : String) (now : Int)
deriving DecidableEq

inductive GwOut where
  | resolved (a : CommandAck)
  | toAgent (c : Command)
  | toController (i : Nat) (a : CommandAck)
deriving DecidableEq

/-- `broadcastToRepl(ack)`.  An inbound agent ack carries the `tabId` the
background service worker filled into the frame (`{...message, tabId}`,
the spec's per-tab enrichment), passed here as `msgTabId`.  The fan-out
skips a controller whose `subscribedTabId` is set and differs from a
present `msgTabId`, and delivers to everyone else — in particular to
every unsubscribed controller. -/
def broadcastAck (s : GwState) (a : CommandAck) (msgTabId : Option Nat) :
    List GwOut :=
  (s.controllers.enum.filter (fun e =>
    match e.2, msgTabId with
    | some sub, some t => t == sub
    | _, _ => true)).map (fun e => GwOut.toController e.1 a)

def hasPendingKey (p : List (String × Int)) (cid : String) : Bool :=
  p.any (fun e => e.1 == cid)

/-- `pendingCommands.delete(cid)` (at most one entry per id on reachable
states; the model removes the first). -/
def removePending : List (String × Int) → String → List (String × Int)
  | [], _ => []
  | e :: rest, cid => if e.1 = cid then rest else e :: removePending rest cid

def gwStep (s : GwState) : GwEvent → GwState × List GwOut
  | .submit c fresh now =>
    let r := executeCommandStep s.world s.cfg s.hist s.agentOpen s.pending c fresh now
    let s' := { s with hist := r.hist, pending := r.pending }
    match r.outcome with
    | .immediate a => (s', [GwOut.resolved a])
    | .sent _ => (s', r.agentSends.map GwOut.toAgent)
  | .agentAck a msgTabId =>
    if hasPendingKey s.pending a.commandId then
      ({ s with pending := removePending s.pending a.commandId },
        GwOut.resolved a :: broadcastAck s a msgTabId)
    else
      (s, broadcastAck s a msgTabId)
  | .timeoutFire cid now =>
    if hasPendingKey s.pending cid then
      ({ s with pending := removePending s.pending cid },
        [GwOut.resolved (CommandAck.fail cid "Command timeout" now)])
    else
      (s, [])

def gwRun (s : GwState) : List GwEvent → GwState × List GwOut
  | [] => (s, [])
  | e :: es =>
    let r := gwStep s e
    let r2 := gwRun r.1 es
    (r2.1, r.2 ++ r2.2)

/-- Resolutions delivered to the `act` caller for one commandId. -/
def resolutionCount (outs : List GwOut) (cid : String) : Nat :=
  outs.countP (fun o => match o with
    | GwOut.resolved a => a.commandId == cid
    | _ => false)

def submitCountE (e : GwEvent) (cid : String) : Nat :=
  match e with
  | .submit c fresh _ => if ensureCid c fresh = cid then 1 else 0
  | _ => 0

def submitCount (es : List GwEvent) (cid : String) : Nat :=
  (es.map (fun e => submitCountE e cid)).sum

def pendingCount (p : List (String × Int)) (cid : String) : Nat :=
  p.countP (fun e => e.1 == cid)

theorem hasPendingKey_iff (p : List (String × Int)) (cid : String) :
    hasPendingKey p cid = true ↔ 0 < pendingCount p cid := by
  simp [hasPendingKey, pendingCount, List.any_eq_true, List.countP_pos_iff]

theorem pendingCount_remove_self (p : List (String × Int)) (cid : String) :
    pendingCount (removePending p cid) cid = pendingCount p cid - 1 := by
  induction p with
  | nil => rfl
  | cons e rest ih =>
    simp only [pendingCount] at ih ⊢
    by_cases he : e.1 = cid
    · simp [removePending, he, List.countP_cons]
    · simp [removePending, he, List.countP_cons, ih]

theorem pendingCount_remove_ne (p : List (String × Int)) (cid cid' : String)
    (h : ¬ cid = cid') :
    pendingCount (removePending p cid) cid' = pendingCount p cid' := by
  induction p with
  | nil => rfl
  | cons e rest ih =>
    simp only [pendingCount] at ih ⊢
    by_cases he : e.1 = cid
    · have hne : (e.1 == cid') = false := by
        simp [he]
        intro hcontra
        exact absurd hcontra h
      simp only [removePending, if_pos he, List.countP_cons, hne]
      simp
    · simp [removePending, he, List.countP_cons, ih]

theorem resolutionCount_broadcast (s : GwState) (a : CommandAck)
    (msgTabId : Option Nat) (cid : String) :
    resolutionCount (broadcastAck s a msgTabId) cid = 0 := by
  simp only [resolutionCount, broadcastAck, List.countP_eq_zero]
  intro o ho
  simp only [List.mem_map] at ho
  obtain ⟨e, _, rfl⟩ := ho
  simp

theorem gwStep_count (s : GwState) (e : GwEvent) (cid : String) :
    resolutionCount (gwStep s e).2 cid +
        pendingCount (gwStep s e).1.pending cid =
      submitCountE e cid + pendingCount s.pending cid := by
  cases e with
  | submit c fresh now =>
    by_cases h1 : (checkCommand (withCid c fresh) (tabUrlOf s.world c)
        (candNameOf s.world c) s.cfg s.hist now).1.allowed = false
    · have he : executeCommandStep s.world s.cfg s.hist s.agentOpen s.pending
          c fresh now =
          ⟨.immediate (.fail (ensureCid c fresh)
              (((checkCommand (withCid c fresh) (tabUrlOf s.world c)
                  (candNameOf s.world c) s.cfg s.hist now).1.reason).getD
                "Policy denied") now),
            s.pending,
            (checkCommand (withCid c fresh) (tabUrlOf s.world c)
              (candNameOf s.world c) s.cfg s.hist now).2, []⟩ := by
        simp [executeCommandStep, h1]
      by_cases hc : ensureCid c fresh = cid <;>
        simp [gwStep, he, submitCountE, resolutionCount, List.countP_cons,
          CommandAck.commandId, hc]
    · by_cases h2 : s.agentOpen = false
      · have he : executeCommandStep s.world s.cfg s.hist s.agentOpen s.pending
            c fresh now =
            ⟨.immediate (.fail (ensureCid c fresh) "No extension connected" now),
              s.pending,
              (checkCommand (withCid c fresh) (tabUrlOf s.world c)
                (candNameOf s.world c) s.cfg s.hist now).2, []⟩ := by
          simp [executeCommandStep, h1, h2]
        by_cases hc : ensureCid c fresh = cid <;>
          simp [gwStep, he, submitCountE, resolutionCount, List.countP_cons,
            CommandAck.commandId, hc]
      · have he : executeCommandStep s.world s.cfg s.hist s.agentOpen s.pending
            c fresh now =
            ⟨.sent (ensureCid c fresh),
              (ensureCid c fresh, now + COMMAND_TIMEOUT_MS) :: s.pending,
              (checkCommand (withCid c fresh) (tabUrlOf s.world c)
                (candNameOf s.world c) s.cfg s.hist now).2,
              [withCid c fresh]⟩ := by
          simp [executeCommandStep, h1, h2]
        by_cases hc : ensureCid c fresh = cid <;>
          · simp [gwStep, he, submitCountE, resolutionCount, pendingCount,
              List.countP_cons, hc]
            try omega
  | agentAck a mt =>
    simp only [gwStep, submitCountE]
    by_cases hk : hasPendingKey s.pending a.commandId = true
    · rw [if_pos hk]
      dsimp only
      have hcons : resolutionCount (GwOut.resolved a :: broadcastAck s a mt) cid =
          resolutionCount (broadcastAck s a mt) cid +
            (if a.commandId = cid then 1 else 0) := by
        simp [resolutionCount, List.countP_cons]
      rw [hcons, resolutionCount_broadcast]
      by_cases hc : a.commandId = cid
      · rw [if_pos hc, ← hc]
        have hpos := (hasPendingKey_iff s.pending a.commandId).mp hk
        have hrm := pendingCount_remove_self s.pending a.commandId
        omega
      · rw [if_neg hc]
        have hrm := pendingCount_remove_ne s.pending a.commandId cid hc
        omega
    · rw [if_neg hk]
      dsimp only
      rw [resolutionCount_broadcast]
  | timeoutFire tcid now =>
    simp only [gwStep, submitCountE]
    by_cases hk : hasPendingKey s.pending tcid = true
    · rw [if_pos hk]
      dsimp only
      have hone : resolutionCount
          [GwOut.resolved (CommandAck.fail tcid "Command timeout" now)] cid =
          (if tcid = cid then 1 else 0) := by
        simp [resolutionCount, List.countP_cons, CommandAck.commandId]
      rw [hone]
      by_cases hc : tcid = cid
      · rw [if_pos hc, ← hc]
        have hpos := (hasPendingKey_iff s.pending tcid).mp hk
        have hrm := pendingCount_remove_self s.pending tcid
        omega
      · rw [if_neg hc]
        have hrm := pendingCount_remove_ne s.pending tcid cid hc
        omega
    · rw [if_neg hk]
      dsimp only
      simp [resolutionCount]

theorem gwRun_count (es : List GwEvent) (s : GwState) (cid : String) :
    resolutionCount (gwRun s es).2 cid +
        pendingCount (gwRun s es).1.pending cid =
      submitCount es cid + pendingCount s.pending cid := by
  induction es generalizing s with
  | nil => simp [gwRun, resolutionCount, submitCount]
  | cons e es ih =>
    simp only [gwRun, submitCount, List.map_cons, List.sum_cons]
    have h1 := gwStep_count s e cid
    have h2 := ih (gwStep s e).1
    simp only [submitCount] at h2
    simp only [resolutionCount, List.countP_append] at h1 h2 ⊢
    omega

end Server

namespace Server

open WorldStore Policy

/-- C2 (amended).  In every trace in which a commandId is submitted exactly
once, starts with no pending entry and ends with none (its entry was
consumed by an agent ack or by the 30-second timer), exactly one
resolution for that commandId reaches the act caller — whether it came
from a policy rejection, the missing-agent failure, an agent ack, or the
timeout.  An inbound agent ack with no pending entry changes no state and
resolves nothing, but it is not dropped silently: `broadcastToRepl` still
fans it out, delivering it to every controller whose subscription filter
it passes — every unsubscribed controller in particular — so it can have
a controller-visible effect. -/
theorem act_exactly_one_resolution :
    (∀ (s : GwState) (es : List GwEvent) (cid : String),
      submitCount es cid = 1 →
      pendingCount s.pending cid = 0 →
      pendingCount (gwRun s es).1.pending cid = 0 →
      resolutionCount (gwRun s es).2 cid = 1) ∧
    (∀ (s : GwState) (a : CommandAck) (mt : Option Nat),
      hasPendingKey s.pending a.commandId = false →
      (gwStep s (GwEvent.agentAck a mt)).1 = s ∧
      (gwStep s (GwEvent.agentAck a mt)).2 = broadcastAck s a mt ∧
      resolutionCount (gwStep s (GwEvent.agentAck a mt)).2 a.commandId = 0) := by
  constructor
  · intro s es cid h1 h2 h3
    have h := gwRun_count es s cid
    omega
  · intro s a mt h
    refine ⟨?_, ?_, ?_⟩
    · simp [gwStep, h]
    · simp [gwStep, h]
    · simp [gwStep, h, resolutionCount_broadcast]

/-- A gateway state with one (unsubscribed) controller, no agent and no
pending commands. -/
def gwS0 : GwState :=
  { world := ⟨[], none⟩, cfg := defaultConfig, hist := []
    agentOpen := false, pending := [], controllers := [none] }

def ackStray : CommandAck := CommandAck.ok "cmd_unknown" 9 none

/-- C2 (counterexample).  An agent ack whose commandId has no pending
entry is not dropped "with no controller-visible effect": the unchanged
`broadcastToRepl(ack)` call still delivers it to the connected
unsubscribed controller — even though the frame carries the tabId the
service worker enriched it with, an unset `subscribedTabId` passes the
filter. -/
theorem stray_ack_still_broadcast :
    hasPendingKey gwS0.pending ackStray.commandId = false ∧
    (gwStep gwS0 (GwEvent.agentAck ackStray (some 1))).2 =
      [GwOut.toController 0 ackStray] :=
  ⟨rfl, rfl⟩

def cmdNoAgent : Command := ⟨CmdType.hover, "cmd_9", 1, none⟩

/-- Witness for C2: a single submission with no agent connected resolves
exactly once (with the synthesized failure), and a stray ack leaves the
state unchanged. -/
theorem act_exactly_one_resolution_witness :
    (submitCount [GwEvent.submit cmdNoAgent "f1" 0] "cmd_9" = 1 ∧
      pendingCount gwS0.pending "cmd_9" = 0 ∧
      pendingCount (gwRun gwS0 [GwEvent.submit cmdNoAgent "f1" 0]).1.pending
        "cmd_9" = 0 ∧
      resolutionCount (gwRun gwS0 [GwEvent.submit cmdNoAgent "f1" 0]).2
        "cmd_9" = 1) ∧
    (hasPendingKey gwS0.pending ackStray.commandId = false ∧
      (gwStep gwS0 (GwEvent.agentAck ackStray (some 1))).1 = gwS0) :=
  ⟨⟨by decide, by decide, by decide,
    act_exactly_one_resolution.1 gwS0 [GwEvent.submit cmdNoAgent "f1" 0]
      "cmd_9" (by decide) (by decide) (by decide)⟩,
   by decide,
   (act_exactly_one_resolution.2 gwS0 ackStray (some 1) (by decide)).1⟩

end Server

namespace WorldStore

/-! ### Candidate search (`searchCandidates`, C8) -/

def getCandidates (w : WorldState) (tabId : Nat) : List ActionCandidate :=
  match alFind? w.tabs tabId with
  | some ts => alValues ts.candidates
  | none => []

structure QueryFilters where
  role : Option String
  tag : Option String
  visible : Option Bool
  enabled : Option Bool
deriving DecidableEq

def fRole (filters : Option QueryFilters) : Option String :=
  filters.bind (·.role)

def fTag (filters : Option QueryFilters) : Option String :=
  filters.bind (·.tag)

def fVisible (filters : Option QueryFilters) : Option Bool :=
  filters.bind (·.visible)

def fEnabled (filters : Option QueryFilters) : Option Bool :=
  filters.bind (·.enabled)

/-- The filter predicate of `searchCandidates`: the source's chain of
early `return false` tests, written as the conjunction of the negated
failure conditions.  `filters?.role &&` is JS truthiness, so a present but
empty `role`/`tag` string leaves that test inactive; `visible` and
`enabled` are compared with `!== undefined` and so are active even when
`false`. -/
def passesFilter (search : String) (filters : Option QueryFilters)
    (c : ActionCandidate) : Bool :=
  !(search != "" && !containsCI c.name search && !containsCI c.aria search &&
      !containsCI c.id search) &&
  !(match fRole filters with
    | some r => r != "" && c.role != r
    | none => false) &&
  !(match fTag filters with
    | some r => r != "" && c.tag != r
    | none => false) &&
  !(match fVisible filters with
    | some v => c.occluded == v
    | none => false) &&
  !(match fEnabled filters with
    | some v => c.state.disabled == v
    | none => false)

def searchCandidates (w : WorldState) (tabId : Nat) (search : String)
    (filters : Option QueryFilters) : List ActionCandidate :=
  (getCandidates w tabId).filter (passesFilter search filters)

theorem textGate_iff (search : String) (c : ActionCandidate) :
    (!(search != "" && !containsCI c.name search && !containsCI c.aria search &&
        !containsCI c.id search)) = true ↔
      (search ≠ "" → (containsCI c.name search = true ∨
        containsCI c.aria search = true ∨ containsCI c.id search = true)) := by
  by_cases hs : search = ""
  · simp [hs]
  · simp only [bne, hs]
    cases ha : containsCI c.name search <;>
      cases hb : containsCI c.aria search <;>
      cases hc : containsCI c.id search <;>
      simp [hs]

theorem roleGate_iff (filters : Option QueryFilters) (c : ActionCandidate) :
    (!(match fRole filters with
      | some r => r != "" && c.role != r
      | none => false)) = true ↔
      (∀ r, fRole filters = some r → r ≠ "" → c.role = r) := by
  cases hr : fRole filters with
  | none => simp
  | some r =>
    by_cases he : r = ""
    · simp [he]
    · cases hcr : (c.role == r) with
      | true => simp_all [bne]
      | false =>
        simp only [bne, he]
        simp_all

theorem tagGate_iff (filters : Option QueryFilters) (c : ActionCandidate) :
    (!(match fTag filters with
      | some r => r != "" && c.tag != r
      | none => false)) = true ↔
      (∀ r, fTag filters = some r → r ≠ "" → c.tag = r) := by
  cases hr : fTag filters with
  | none => simp
  | some r =>
    by_cases he : r = ""
    · simp [he]
    · cases hcr : (c.tag == r) with
      | true => simp_all [bne]
      | false =>
        simp only [bne, he]
        simp_all

theorem visibleGate_iff (filters : Option QueryFilters) (c : ActionCandidate) :
    (!(match fVisible filters with
      | some v => c.occluded == v
      | none => false)) = true ↔
      (∀ v, fVisible filters = some v → c.occluded = !v) := by
  cases hr : fVisible filters with
  | none => simp
  | some v => cases v <;> cases hco : c.occluded <;> simp_all

theorem enabledGate_iff (filters : Option QueryFilters) (c : ActionCandidate) :
    (!(match fEnabled filters with
      | some v => c.state.disabled == v
      | none => false)) = true ↔
      (∀ v, fEnabled filters = some v → c.state.disabled = !v) := by
  cases hr : fEnabled filters with
  | none => simp
  | some v => cases v <;> cases hco : c.state.disabled <;> simp_all

/-- C8 (amended).  A candidate is in the search result exactly when it is
a candidate of the tab, the (non-empty) search text occurs
case-insensitively in its name, aria, or id, every given non-empty role or
tag filter matches by exact string equality (a present but empty string
is ignored by the JS truthiness test), `visible` matches non-occlusion
and `enabled` matches non-disabledness. -/
theorem search_filter_membership (w : WorldState) (tabId : Nat)
    (search : String) (filters : Option QueryFilters) (c : ActionCandidate) :
    c ∈ searchCandidates w tabId search filters ↔
      c ∈ getCandidates w tabId ∧
      (search ≠ "" → (containsCI c.name search = true ∨
        containsCI c.aria search = true ∨ containsCI c.id search = true)) ∧
      (∀ r, fRole filters = some r → r ≠ "" → c.role = r) ∧
      (∀ r, fTag filters = some r → r ≠ "" → c.tag = r) ∧
      (∀ v, fVisible filters = some v → c.occluded = !v) ∧
      (∀ v, fEnabled filters = some v → c.state.disabled = !v) := by
  rw [searchCandidates, List.mem_filter]
  rw [passesFilter, Bool.and_eq_true, Bool.and_eq_true, Bool.and_eq_true,
    Bool.and_eq_true]
  rw [textGate_iff, roleGate_iff, tagGate_iff, visibleGate_iff, enabledGate_iff]
  tauto

def tsQ : TabState := { ts0 with candidates := [("a", candA)] }

def wQ : WorldState := ⟨[(1, tsQ)], none⟩

def filtersEmptyRole : Option QueryFilters :=
  some { role := some "", tag := none, visible := none, enabled := none }

/-- C8 (counterexample).  A given role filter holding the empty string is
ignored by the JS truthiness test `filters?.role && …`: the button
candidate is returned although its role is not equal to the given "". -/
theorem empty_role_filter_ignored :
    candA ∈ searchCandidates wQ 1 "" filtersEmptyRole ∧ candA.role ≠ "" := by
  constructor
  · decide
  · decide

def filtersRoleButton : Option QueryFilters :=
  some { role := some "button", tag := none, visible := none, enabled := none }

/-- Witness for C8: the amended characterization evaluated at the "sign
in"/role "button" query of the spec's scenario. -/
theorem search_filter_membership_witness :
    candA ∈ searchCandidates wQ 1 "sign in" filtersRoleButton ↔
      candA ∈ getCandidates wQ 1 ∧
      ("sign in" ≠ "" → (containsCI candA.name "sign in" = true ∨
        containsCI candA.aria "sign in" = true ∨
        containsCI candA.id "sign in" = true)) ∧
      (∀ r, fRole filtersRoleButton = some r → r ≠ "" → candA.role = r) ∧
      (∀ r, fTag filtersRoleButton = some r → r ≠ "" → candA.tag = r) ∧
      (∀ v, fVisible filtersRoleButton = some v → candA.occluded = !v) ∧
      (∀ v, fEnabled filtersRoleButton = some v → candA.state.disabled = !v) :=
  search_filter_membership wQ 1 "sign in" filtersRoleButton candA

end WorldStore

/-! ## Watchers (`watchers.ts`) -/

namespace Watchers

/-- The partial record `diffCandidate` builds (`Partial<ActionCandidate>`);
`value` is doubly optional because the new candidate's `value` itself may
be `undefined` and the assignment `changes.value = newCandidate.value`
still creates the key. -/
structure CandidateDiff where
  rect : Option Rect
  rectN : Option Rect
  hit : Option HitPoint
  state : Option ActionState
  name : Option String
  value : Option (Option String)
  occluded : Option Bool
  ctx : Option ActionContext
deriving DecidableEq

def rectChangedB (o n : ActionCandidate) : Bool :=
  decide (2 < |o.rect.x - n.rect.x|) || decide (2 < |o.rect.y - n.rect.y|) ||
  decide (2 < |o.rect.w - n.rect.w|) || decide (2 < |o.rect.h - n.rect.h|)

def stateChangedB (o n : ActionCandidate) : Bool :=
  o.state.disabled != n.state.disabled || o.state.expanded != n.state.expanded ||
  o.state.checked != n.state.checked || o.state.selected != n.state.selected ||
  o.state.focused != n.state.focused

def ctxChangedB (o n : ActionCandidate) : Bool :=
  o.ctx.inModal != n.ctx.inModal || o.ctx.inNav != n.ctx.inNav

/-- `diffCandidate`: the incremental `changes`/`hasChanges` construction of
the source, rendered as one record whose fields are present exactly when
the corresponding group changed. -/
def diffCandidate (o n : ActionCandidate) : Option CandidateDiff :=
  let rc := rectChangedB o n
  let sc := stateChangedB o n
  let nc := o.name != n.name
  let vc := o.value != n.value
  let oc := o.occluded != n.occluded
  let cc := ctxChangedB o n
  if rc || sc || nc || vc || oc || cc then
    some { rect := if rc then some n.rect else none
           rectN := if rc then some n.rectN else none
           hit := if rc then some n.hit else none
           state := if sc then some n.state else none
           name := if nc then some n.name else none
           value := if vc then some n.value else none
           occluded := if oc then some n.occluded else none
           ctx := if cc then some n.ctx else none }
  else none

/-- A delta as the watcher emits it (tabId 0; the background script fills
the real one in). -/
structure WatchDelta where
  tabId : Nat
  frameId : Nat
  timestamp : Int
  added : List ActionCandidate
  removed : List String
  updated : List (String × CandidateDiff)
deriving DecidableEq

/-- `new Map(currentCandidates.map(c => [c.id, c])).get(k)`: the last
entry with the id wins. -/
def currentGet (cs : List ActionCandidate) (k : String) :
    Option ActionCandidate :=
  WorldStore.lastAdded k cs

def computeDelta (previous : List (String × ActionCandidate))
    (current : List ActionCandidate) (now : Int) : WatchDelta :=
  { tabId := 0, frameId := 0, timestamp := now
    removed := previous.filterMap (fun e =>
      if (currentGet current e.1).isSome then none else some e.1)
    updated := previous.filterMap (fun e =>
      match currentGet current e.1 with
      | none => none
      | some newC => (diffCandidate e.2 newC).map (fun d => (e.1, d)))
    added := current.filter (fun c => !(alFind? previous c.id).isSome) }

/-- C9.  The per-candidate diff is non-empty exactly when a rect
coordinate moved by more than 2 pixels, a state boolean differs, name,
value or occlusion differ, or the modal/nav context differs; the emitted
entry carries exactly the changed groups (rect, rectN and hit together
with the rect; the whole state; the whole ctx; name, value, occluded
individually); and every `updated` entry of `computeDelta` arises as such
a diff of a previous candidate against the current one with its id. -/
theorem diff_minimal_fields (o n : ActionCandidate) :
    ((diffCandidate o n).isSome ↔
      ((2 < |o.rect.x - n.rect.x| ∨ 2 < |o.rect.y - n.rect.y| ∨
        2 < |o.rect.w - n.rect.w| ∨ 2 < |o.rect.h - n.rect.h|) ∨
       (o.state.disabled ≠ n.state.disabled ∨ o.state.expanded ≠ n.state.expanded ∨
        o.state.checked ≠ n.state.checked ∨ o.state.selected ≠ n.state.selected ∨
        o.state.focused ≠ n.state.focused) ∨
       o.name ≠ n.name ∨ o.value ≠ n.value ∨ o.occluded ≠ n.occluded ∨
       (o.ctx.inModal ≠ n.ctx.inModal ∨ o.ctx.inNav ≠ n.ctx.inNav))) ∧
    (∀ ch, diffCandidate o n = some ch →
      ch.rect = (if rectChangedB o n then some n.rect else none) ∧
      ch.rectN = (if rectChangedB o n then some n.rectN else none) ∧
      ch.hit = (if rectChangedB o n then some n.hit else none) ∧
      ch.state = (if stateChangedB o n then some n.state else none) ∧
      ch.name = (if o.name ≠ n.name then some n.name else none) ∧
      ch.value = (if o.value ≠ n.value then some n.value else none) ∧
      ch.occluded = (if o.occluded ≠ n.occluded then some n.occluded else none) ∧
      ch.ctx = (if ctxChangedB o n then some n.ctx else none)) ∧
    (∀ (prev : List (String × ActionCandidate)) (cur : List ActionCandidate)
        (now : Int) (idd : String) (ch : CandidateDiff),
      (idd, ch) ∈ (computeDelta prev cur now).updated →
      ∃ oldC newC, (idd, oldC) ∈ prev ∧ currentGet cur idd = some newC ∧
        diffCandidate oldC newC = some ch) := by
  refine ⟨?_, ?_, ?_⟩
  · have hiff : (diffCandidate o n).isSome =
        (rectChangedB o n || stateChangedB o n || (o.name != n.name) ||
          (o.value != n.value) || (o.occluded != n.occluded) || ctxChangedB o n) := by
      simp only [diffCandidate]
      by_cases h : (rectChangedB o n || stateChangedB o n || (o.name != n.name) ||
          (o.value != n.value) || (o.occluded != n.occluded) || ctxChangedB o n) = true
      · rw [if_pos h, h]
        rfl
      · rw [if_neg h]
        rw [Bool.not_eq_true] at h
        rw [h]
        rfl
    rw [hiff]
    simp only [Bool.or_eq_true, rectChangedB, stateChangedB, ctxChangedB,
      decide_eq_true_eq, bne_iff_ne]
    tauto
  · intro ch h
    simp only [diffCandidate] at h
    by_cases hall : (rectChangedB o n || stateChangedB o n || (o.name != n.name) ||
        (o.value != n.value) || (o.occluded != n.occluded) || ctxChangedB o n) = true
    · rw [if_pos hall] at h
      injection h with h
      subst h
      refine ⟨rfl, rfl, rfl, rfl, ?_, ?_, ?_, rfl⟩
      · by_cases hnm : o.name = n.name <;> simp [hnm, bne_iff_ne]
      · by_cases hv : o.value = n.value <;> simp [hv, bne_iff_ne]
      · by_cases ho : o.occluded = n.occluded <;> simp [ho, bne_iff_ne]
    · rw [if_neg hall] at h
      exact absurd h (by simp)
  · intro prev cur now idd ch hmem
    simp only [computeDelta, List.mem_filterMap] at hmem
    obtain ⟨e, hin, hfe⟩ := hmem
    cases hcg : currentGet cur e.1 with
    | none => rw [hcg] at hfe; simp at hfe
    | some newC =>
      rw [hcg] at hfe
      simp only [Option.map_eq_some'] at hfe
      obtain ⟨d, hd, heq⟩ := hfe
      injection heq with h1 h2
      subst h1
      subst h2
      exact ⟨e.2, newC, hin, hcg, hd⟩

end Watchers

namespace Watchers

open WorldStore

def candB : ActionCandidate :=
  { candA with name := "Sign in now", occluded := true }

def chB : CandidateDiff :=
  { rect := none, rectN := none, hit := none, state := none
    name := some "Sign in now", value := none, occluded := some true
    ctx := none }

/-- Witness for C9 at a concrete pair of candidates differing in name and
occlusion only, and at the corresponding one-entry previous map. -/
theorem diff_minimal_fields_witness :
    diffCandidate candA candB = some chB ∧
    (chB.rect = (if rectChangedB candA candB then some candB.rect else none) ∧
      chB.rectN = (if rectChangedB candA candB then some candB.rectN else none) ∧
      chB.hit = (if rectChangedB candA candB then some candB.hit else none) ∧
      chB.state = (if stateChangedB candA candB then some candB.state else none) ∧
      chB.name = (if candA.name ≠ candB.name then some candB.name else none) ∧
      chB.value = (if candA.value ≠ candB.value then some candB.value else none) ∧
      chB.occluded =
        (if candA.occluded ≠ candB.occluded then some candB.occluded else none) ∧
      chB.ctx = (if ctxChangedB candA candB then some candB.ctx else none)) ∧
    (("a", chB) ∈ (computeDelta [("a", candA)] [candB] 0).updated ∧
      ∃ oldC newC, ("a", oldC) ∈ [("a", candA)] ∧
        currentGet [candB] "a" = some newC ∧
        diffCandidate oldC newC = some chB) :=
  ⟨by decide,
   (diff_minimal_fields candA candB).2.1 chB (by decide),
   by decide,
   (diff_minimal_fields candA candB).2.2 [("a", candA)] [candB] 0 "a" chB
     (by decide)⟩

end Watchers

/-! ## In-page executor (`executor.ts`) -/

namespace Executor

/-- Float geometry of `getBoundingClientRect`, as exact rationals. -/
structure DomRect where
  left : ℚ
  top : ℚ
  width : ℚ
  height : ℚ
deriving DecidableEq

/-- A DOM element reference: its identity plus its current bounds.  The
hit-test (`document.elementFromPoint`) and the DOM containment relation
(`Node.contains`) are passed in as oracles, since they depend on the whole
page. -/
structure DomElement where
  ref : Nat
  bounds : DomRect
deriving DecidableEq

/-- `Math.round`: round half toward positive infinity. -/
def jsRound (q : ℚ) : Int := ⌊q + 1 / 2⌋

/-- `ackVerify(commandId, id, element)`: `stillVisible` is the element's
presence, `hitTestOk` re-hit-tests the center, `newRect` is the rounded
bounds — and `rectChanged` is initialized to `false` and never
reassigned. -/
def ackVerify (commandId : String) (id : String) (element : Option DomElement)
    (elementFromPoint : ℚ → ℚ → Option Nat) (contains : Nat → Nat → Bool)
    (now : Int) : CommandAck :=
  match element with
  | none =>
    CommandAck.verify commandId now
      { id := id, stillVisible := false, hitTestOk := false
        rectChanged := false, newRect := none }
  | some el =>
    let cx := el.bounds.left + el.bounds.width / 2
    let cy := el.bounds.top + el.bounds.height / 2
    let topEl := elementFromPoint cx cy
    let hitTestOk :=
      match topEl with
      | some t => t == el.ref || contains el.ref t || contains t el.ref
      | none => false
    CommandAck.verify commandId now
      { id := id, stillVisible := true, hitTestOk := hitTestOk
        rectChanged := false
        newRect := some ⟨jsRound el.bounds.left, jsRound el.bounds.top,
          jsRound el.bounds.width, jsRound el.bounds.height⟩ }

def verificationOf : CommandAck → Option Verification
  | CommandAck.verify _ _ v => some v
  | _ => none

/-- C10.  Every verify ack the executor produces (click and hover route
through `ackVerify`) carries `rectChanged = false`, for every element,
hit-test oracle and containment relation — it is never computed from the
old and new rects. -/
theorem ackVerify_rectChanged_false (commandId id : String)
    (element : Option DomElement) (elementFromPoint : ℚ → ℚ → Option Nat)
    (contains : Nat → Nat → Bool) (now : Int) :
    (verificationOf
        (ackVerify commandId id element elementFromPoint contains now)).map
      (fun v => v.rectChanged) = some false := by
  cases element <;> rfl

end Executor
